import Mathlib

/-!
Verification development for the MeshBot relay pipeline.

We shallowly embed the Python sources as Lean functions:
- `utils/text_utils.py` (`truncate_by_sentences`, the response chunker),
- `core/message_processor.py` (broadcast classification, mention detection,
  broadcast-reply policy, the reply/error send path),
- `api/ollama_api.py` (the HTTP backend's `chat` and conversation history),
- `api/ws_platform.py` (pending-response correlation, reconnection backoff,
  and the WebSocket backend's `chat`),
- `utils/ai_client_factory.py` (backend resolution with fallback).

Python strings are modelled as `List Char` (Unicode scalar values); the
UTF-8 byte length of a string is the sum of `Char.utf8Size` over its
characters, matching `len(s.encode('utf-8'))`.
-/

set_option autoImplicit false

/-- A Python string, modelled as its list of Unicode characters. -/
abbrev Str := List Char

/-- Characters of a Lean string literal, used to transcribe Python literals. -/
def toChars (s : String) : Str := s.data

/-- `len(s.encode('utf-8'))`: UTF-8 byte length of a string. -/
def byteLen (s : Str) : Nat := (s.map Char.utf8Size).sum

/-- ASCII whitespace stripped by Python's `str.strip()`
(space, tab, newline, carriage return, vertical tab, form feed). -/
def isPySpace (c : Char) : Bool :=
  c = ' ' || c = '\t' || c = '\n' || c = '\r' || c = Char.ofNat 11 || c = Char.ofNat 12

/-- Python `s.strip()`: remove leading and trailing whitespace. -/
def pyStrip (s : Str) : Str :=
  ((s.dropWhile isPySpace).reverse.dropWhile isPySpace).reverse

/-- Split a list at every element satisfying `p` (the delimiters are dropped).
Models `re.split` with a single-character alternative class; runs of
delimiters yield empty fragments, which the callers below filter out,
so this agrees with the source's regexes (`[。！？!?\.]|\n+` and
`[，,；;\s]+`) after that filtering. -/
def consFrag (c : Char) : List Str → List Str
  | [] => [[c]]
  | t :: ts => (c :: t) :: ts

def splitOnPred (p : Char → Bool) : Str → List Str
  | [] => [[]]
  | c :: rest =>
    if p c then [] :: splitOnPred p rest else consFrag c (splitOnPred p rest)

/-- Sentence-terminal delimiters of `truncate_by_sentences`:
the class `[。！？!?\.]` together with `\n`. -/
def isSentenceEnd (c : Char) : Bool :=
  c = '。' || c = '！' || c = '？' || c = '!' || c = '?' || c = '.' || c = '\n'

/-- Secondary delimiters for oversized sentences: the class `[，,；;\s]`. -/
def isSubDelim (c : Char) : Bool :=
  c = '，' || c = ',' || c = '；' || c = ';' || isPySpace c

/-- The cleaned sentence list of `truncate_by_sentences`:
`re.split(r'[。！？!?\.]|\n+', text.strip())`, each fragment stripped,
empty fragments discarded. -/
def sentencesOf (text : Str) : List Str :=
  ((splitOnPred isSentenceEnd (pyStrip text)).map pyStrip).filter (fun s => !s.isEmpty)

/-- The character-level fallback of `truncate_by_sentences` (lines 62-75):
accumulate characters of `sub` into `temp` while the byte budget allows,
closing chunks with an appended `'。'` when it does not.
Returns the grown result list and the final `temp`. -/
def charFallback (limit : Nat) (sub : Str) (res : List Str) (temp : Str) :
    List Str × Str :=
  match sub with
  | [] => (res, temp)
  | ch :: rest =>
    if byteLen (temp ++ [ch]) ≤ limit then
      charFallback limit rest res (temp ++ [ch])
    else
      let res' := if temp = [] then res else res ++ [temp ++ ['。']]
      charFallback limit rest res' [ch]

/-- The oversized-sentence loop of `truncate_by_sentences` (lines 48-77):
greedy accumulation of comma-split sub-fragments, joined by `'，'`,
falling back to `charFallback` for sub-fragments over the limit.
Returns the grown result list and the final `current_chunk`. -/
def processSubs (limit : Nat) (subs : List Str) (res : List Str) (cur : Str) :
    List Str × Str :=
  match subs with
  | [] => (res, cur)
  | sub0 :: rest =>
    let sub := pyStrip sub0
    if sub = [] then
      processSubs limit rest res cur
    else if cur ≠ [] ∧ byteLen (cur ++ '，' :: sub) ≤ limit then
      processSubs limit rest res (cur ++ '，' :: sub)
    else if cur = [] ∧ byteLen sub ≤ limit then
      processSubs limit rest res sub
    else
      let res1 := if cur = [] then res else res ++ [cur ++ ['。']]
      if byteLen sub > limit then
        let fb := charFallback limit sub res1 []
        processSubs limit rest fb.1 fb.2
      else
        processSubs limit rest res1 sub

/-- The main sentence loop of `truncate_by_sentences` (lines 40-92).
Returns the grown result list and the final `current_chunk`. -/
def processSentences (limit : Nat) (sents : List Str) (res : List Str) (cur : Str) :
    List Str × Str :=
  match sents with
  | [] => (res, cur)
  | sentence :: rest =>
    if byteLen sentence > limit then
      let res0 := if cur = [] then res else res ++ [cur]
      let subs := splitOnPred isSubDelim sentence
      let ps := processSubs limit subs res0 []
      processSentences limit rest ps.1 ps.2
    else
      let candidate := if cur = [] then sentence else cur ++ '。' :: sentence
      if byteLen candidate ≤ limit then
        processSentences limit rest res candidate
      else
        let res1 := if cur = [] then res else res ++ [cur ++ ['。']]
        processSentences limit rest res1 sentence

/-- `truncate_by_sentences(text, byte_limit)` from `utils/text_utils.py`,
for string inputs. Python's guard `byte_limit <= 0` becomes `limit = 0`
on `Nat` (the claims only concern positive limits); the `isinstance(text,
(list, tuple))` coercion branch concerns non-string inputs and is outside
this model. -/
def truncate_by_sentences (text : Str) (limit : Nat) : List Str :=
  if text = [] ∨ limit = 0 then []
  else
    let sents := sentencesOf text
    if sents = [] then []
    else
      let ps := processSentences limit sents [] []
      if ps.2 = [] then ps.1
      else if ps.2.getLast? = some '。' then ps.1 ++ [ps.2]
      else ps.1 ++ [ps.2 ++ ['。']]

/-! ## `core/message_processor.py` -/

/-- Python `needle in hay`: substring test. -/
def containsSub (needle hay : Str) : Bool :=
  match hay with
  | [] => needle.isEmpty
  | _ :: rest => needle.isPrefixOf hay || containsSub needle rest

/-- Python `s.lower()`, modelled on the ASCII range (`Char.toLower`
lowercases exactly `'A'`-`'Z'`). -/
def lowerStr (s : Str) : Str := s.map Char.toLower

/-- The hardcoded broadcast sentinel set of `_is_broadcast_message`. -/
def broadcast_addresses : List String :=
  ["4294967295", "4294967280", "65535", "65534"]

/-- `MessageProcessor._is_broadcast_message(to_id)`; `node_id` is
`self.node_id`. -/
def is_broadcast_message (node_id to_id : String) : Bool :=
  if to_id ∈ broadcast_addresses ∨ to_id = "0" ∨ to_id = "65535" then
    true
  else if to_id ≠ node_id then
    true
  else
    false

/-- The default `self.broadcast_keywords` list of `MessageProcessor`. -/
def default_broadcast_keywords : List Str :=
  [toChars "@all", toChars "@大家", toChars "@所有人", toChars "大家", toChars "全体"]

/-- The `bot_mentions` list built inside `_contains_mention`: the fixed
tokens plus `"@" + sender_name` when the sender name is non-empty
(else the empty string, skipped by the loop's truthiness check). -/
def bot_mentions (sender_name : Str) : List Str :=
  [toChars "@bot", toChars "@机器人", toChars "@ai", toChars "@助手",
   if sender_name.isEmpty then [] else '@' :: sender_name]

/-- `MessageProcessor._contains_mention(text, sender_name)`, parametrised
by `self.broadcast_keywords`. Bot-mention tokens are matched after
lowering both sides; keywords are matched verbatim. -/
def contains_mention (broadcast_keywords : List Str) (text sender_name : Str) : Bool :=
  (bot_mentions sender_name).any
      (fun m => !m.isEmpty && containsSub (lowerStr m) (lowerStr text))
    || broadcast_keywords.any (fun k => containsSub k text)

/-- The classification pair computed by `_process_text_message` for a
non-empty text: `(is_broadcast, is_mention)`. -/
def classify_text_message (broadcast_keywords : List Str) (node_id to_id : String)
    (text sender_name : Str) : Bool × Bool :=
  (is_broadcast_message node_id to_id,
   contains_mention broadcast_keywords text sender_name)

/-- The `question_indicators` list of `_should_respond_to_broadcast`. -/
def question_indicators : List Str :=
  [toChars "吗？", toChars "?", toChars "怎么办", toChars "如何", toChars "为什么",
   toChars "什么", toChars "怎样", toChars "能不能", toChars "是否可以"]

/-- The `response_keywords` list of `_should_respond_to_broadcast`. -/
def response_keywords : List Str :=
  [toChars "帮助", toChars "求助", toChars "问题", toChars "请教",
   toChars "建议", toChars "意见"]

/-- `MessageProcessor._should_respond_to_broadcast(text, long_name,
is_mention)`, parametrised by `self.broadcast_enabled`. The `long_name`
argument is unused by the source and omitted here. -/
def should_respond_to_broadcast (broadcast_enabled : Bool) (text : Str)
    (is_mention : Bool) : Bool :=
  if is_mention then true
  else if question_indicators.any (fun i => containsSub i text) then true
  else if broadcast_enabled && response_keywords.any (fun k => containsSub k text) then
    true
  else false

/-! ## `api/ollama_api.py` -/

/-- A `{role, content}` entry of `conversation_history`. -/
structure RoleMsg where
  role : String
  content : Str
deriving DecidableEq

/-- The `{success, response, error}` dictionary returned by every
backend `chat`. -/
structure ChatResult where
  success : Bool
  response : Option Str
  error : Option Str
deriving DecidableEq

/-- `AsyncOllamaChatClient._update_conversation_history`: append the user
message and the assistant response, then keep only the last 20 entries
(`self.conversation_history[-20:]`). -/
def update_conversation_history (h : List RoleMsg) (user_message ai_response : Str) :
    List RoleMsg :=
  let h' := h ++ [⟨"user", user_message⟩, ⟨"assistant", ai_response⟩]
  if h'.length > 20 then h'.drop (h'.length - 20) else h'

/-- Outcome of the single `POST {base_url}/api/chat` an Ollama `chat`
call performs: HTTP 200 with the reply content, a non-200 status, a
network error (`aiohttp.ClientError`), or another exception. -/
inductive HttpOutcome where
  | ok (content : Str)
  | httpError (status : Nat) (body : Str)
  | netError (e : Str)
  | exc (e : Str)
deriving DecidableEq

/-- Result of an Ollama `chat` call together with its side effects:
the new conversation history and the number of HTTP requests issued. -/
structure OllamaChatOut where
  result : ChatResult
  history : List RoleMsg
  httpRequests : Nat
deriving DecidableEq

/-- `AsyncOllamaChatClient.chat(user_name, message, ...)`, over an
explicit history and an abstract outcome for the one HTTP request it
makes. The empty-message guard (`not message or not message.strip()`)
runs before any request. -/
def ollama_chat (history : List RoleMsg) (user_name message : Str)
    (outcome : HttpOutcome) : OllamaChatOut :=
  if message.isEmpty || (pyStrip message).isEmpty then
    ⟨⟨false, none, some (toChars "消息内容为空")⟩, history, 0⟩
  else
    let full := user_name ++ ':' :: message
    match outcome with
    | .ok content =>
      ⟨⟨true, some content, none⟩, update_conversation_history history full content, 1⟩
    | .httpError status _ =>
      ⟨⟨false, none, some (toChars "API错误: " ++ toChars (Nat.repr status))⟩, history, 1⟩
    | .netError e =>
      ⟨⟨false, none, some (toChars "网络错误: " ++ e)⟩, history, 1⟩
    | .exc e =>
      ⟨⟨false, none, some (toChars "处理异常: " ++ e)⟩, history, 1⟩

/-! ## `api/ws_platform.py` -/

/-- A decoded incoming frame: `json.loads` yielded a dict (modelled by its
`request_id` and `message` fields, the only ones the client reads), some
other JSON value, or the text fallback on `JSONDecodeError`. -/
inductive WsData where
  | obj (request_id : Option String) (message : Option Str)
  | nonDict
  | text (raw : Str)
deriving DecidableEq

/-- One `_pending_responses` entry: the `asyncio.Event` (fired or not)
and the one-slot data holder `[None]`. -/
structure PendingEntry where
  fired : Bool
  slot : Option WsData
deriving DecidableEq

/-- The `_pending_responses` dict, as an association list keyed by
request id (Python dict keys are unique; lookups take the first hit). -/
abbrev PendingMap := List (String × PendingEntry)

/-- Dict lookup `m[k]` / `k in m`. -/
def lookupP (m : PendingMap) (k : String) : Option PendingEntry :=
  match m with
  | [] => none
  | (k', e) :: rest => if k' = k then some e else lookupP rest k

/-- Dict update `m[k] = e` for a key already present (first occurrence). -/
def setP (m : PendingMap) (k : String) (e : PendingEntry) : PendingMap :=
  match m with
  | [] => []
  | (k', e') :: rest => if k' = k then (k', e) :: rest else (k', e') :: setP rest k e

/-- Dict removal `m.pop(k, None)`. -/
def popP (m : PendingMap) (k : String) : PendingMap :=
  match m with
  | [] => []
  | (k', e') :: rest => if k' = k then rest else (k', e') :: popP rest k

/-- `AsyncWebSocketsClient._handle_message` on an already-decoded frame:
if the frame carries a truthy `request_id` present in `_pending_responses`,
store the frame in that entry's slot and fire its event, and do not
broadcast; otherwise leave the map alone and dispatch the frame to the
registered handlers. Returns the new map and whether the frame was
dispatched to the generic handlers. -/
def handle_message (m : PendingMap) (d : WsData) : PendingMap × Bool :=
  match d with
  | .obj rid _ =>
    match rid with
    | some r =>
      if r ≠ "" ∧ (lookupP m r).isSome = true then
        (setP m r ⟨true, some d⟩, false)
      else
        (m, true)
    | none => (m, true)
  | .nonDict => (m, true)
  | .text _ => (m, true)

/-- `AsyncWebSocketsClient._connect_with_retry`, abstracting `init()` into
an oracle `outcomes` giving the success of each connection attempt
(attempt `a` is the `a`-th call of `init`, counting from 0). `attempts`
mirrors `self.reconnect_attempts`, `maxA` `self.max_reconnect_attempts`,
`base` `self.reconnect_delay`, `cap` `self.max_reconnect_delay`. Returns
the loop's result and the list of back-off delays slept, in order. The
fuel is only a termination device: `maxA + 1 - attempts` iterations
always suffice because the loop exits once `attempts` exceeds `maxA`. -/
def connect_with_retry (fuel : Nat) (outcomes : Nat → Bool)
    (attempts maxA base cap : Nat) : Bool × List Nat :=
  match fuel with
  | 0 => (false, [])
  | fuel' + 1 =>
    if outcomes attempts then (true, [])
    else
      let a := attempts + 1
      if a > maxA then (false, [])
      else
        let d := min (base * 2 ^ (a - 1)) cap
        let r := connect_with_retry fuel' outcomes a maxA base cap
        (r.1, d :: r.2)

/-- The delay the source computes before reconnection attempt `k ≥ 1`. -/
def backoffDelay (base cap k : Nat) : Nat := min (base * 2 ^ (k - 1)) cap

/-- Result of a WebSocket `chat` call with its side effects: the pending
map afterwards and the number of frames sent on the socket. -/
structure WsChatOut where
  result : ChatResult
  pending : PendingMap
  framesSent : Nat
deriving DecidableEq

/-- `AsyncWebSocketsClient.chat(user_name, message, system_prompt,
timeout)`, over an explicit pending map and an abstract environment:
`connected` is the connection state after `start`/`_ensure_connection`,
`request_id` the fresh `uuid4` string, `send_ok` the outcome of
`send_message`, and `response` the correlated frame stored in the entry's
slot before the timeout (`none` models `asyncio.TimeoutError`). The
guard on `user_name`/`message` runs before anything else; the `finally`
block pops the pending entry on success, timeout, and send failure. -/
def ws_chat (pending : PendingMap) (user_name message : Str)
    (connected : Bool) (request_id : String) (send_ok : Bool)
    (response : Option WsData) : WsChatOut :=
  if user_name.isEmpty || message.isEmpty || (pyStrip message).isEmpty then
    ⟨⟨false, none, some (toChars "用户名或消息内容为空")⟩, pending, 0⟩
  else if !connected then
    ⟨⟨false, none, some (toChars "WebSocket未连接")⟩, pending, 0⟩
  else
    let pending1 := pending ++ [(request_id, ⟨false, none⟩)]
    if !send_ok then
      ⟨⟨false, none, some (toChars "发送失败")⟩, popP pending1 request_id, 0⟩
    else
      match response with
      | none =>
        ⟨⟨false, none, some (toChars "等待响应超时")⟩, popP pending1 request_id, 1⟩
      | some d =>
        let content :=
          match d with
          | .obj _ (some msg) => msg
          | .obj _ none => toChars "收到响应但无消息内容"
          | _ => toChars "str(raw_response)"
        ⟨⟨true, some content, none⟩, popP pending1 request_id, 1⟩

/-! ## `core/message_processor.py`, `handle_incoming_message` -/

/-- One `interface.sendText` call: the text and the destination
(`none` = broadcast send, `some id` = direct send to that node). -/
structure Send where
  text : Str
  dest : Option String
deriving DecidableEq

/-- Side effects of `MessageProcessor.handle_incoming_message` against an
Ollama backend: the `sendText` calls issued in order, the backend's
conversation history afterwards, and whether `client.chat` was called. -/
structure HandleOut where
  sends : List Send
  history : List RoleMsg
  chatCalled : Bool
deriving DecidableEq

/-- `MessageProcessor.handle_incoming_message(message_data, interface,
client)` for an `AsyncOllamaChatClient` backend, over an explicit
conversation history and an abstract outcome of the backend's one HTTP
request. `max_response_length` is `self.max_response_length`. The
broadcast-reply policy gate, the `[:max_response_length]` character
truncation, the `"💬 "` broadcast prefix, the byte-length chunking
decision, and the error-notice path mirror lines 261-328 of the source
(the generic `except Exception` guard has no counterpart in this pure
model). -/
def handle_incoming_message (broadcast_enabled : Bool) (max_response_length : Nat)
    (from_id : String) (text long_name : Str) (is_broadcast is_mention : Bool)
    (history : List RoleMsg) (outcome : HttpOutcome) : HandleOut :=
  if is_broadcast && !should_respond_to_broadcast broadcast_enabled text is_mention then
    ⟨[], history, false⟩
  else
    let r := ollama_chat history long_name text outcome
    if r.result.success then
      let response0 := (r.result.response.getD []).take max_response_length
      let response := if is_broadcast then toChars "💬 " ++ response0 else response0
      let dest : Option String := if is_broadcast then none else some from_id
      if byteLen response > max_response_length then
        ⟨(truncate_by_sentences response max_response_length).map (fun s => ⟨s, dest⟩),
         r.history, true⟩
      else
        ⟨[⟨response, dest⟩], r.history, true⟩
    else
      let error_msg := r.result.error.getD (toChars "未知错误")
      ⟨[⟨toChars "❌ 处理失败: " ++ error_msg,
         if is_broadcast then none else some from_id⟩], r.history, true⟩

/-! ## `utils/ai_client_factory.py` -/

/-- The Python exception classes relevant to `create_ai_client`:
the three caught ones, `TypeError` (raised by `client_class(**kwargs)` on
malformed arguments, not caught), and the `RuntimeError` it raises when
the fallback import fails inside the `except` block. -/
inductive PyExc where
  | importError
  | attributeError
  | keyError
  | typeError
  | runtimeError
deriving DecidableEq

/-- The exceptions caught by `except (ImportError, AttributeError,
KeyError)`. -/
def caughtByFactory (e : PyExc) : Bool :=
  match e with
  | .importError => true
  | .attributeError => true
  | .keyError => true
  | _ => false

/-- A client descriptor: a platform's `{module, class, kwargs}` config
entry, kept abstract. -/
structure Desc where
  module : String
  className : String
deriving DecidableEq

/-- A constructed backend instance: the built-in
`AsyncOllamaChatClient(default_model="qwen2.5:7b")` fallback, or an
instance built from a descriptor. -/
inductive Client where
  | ollamaFallback
  | custom (d : Desc)
deriving DecidableEq

/-- `create_ai_client(platform)` from `utils/ai_client_factory.py`.
`cfg` is `get_ai_client_config()` as a partial map (Python's
`dict.get(...) or dict.get(...)` treats a missing or falsy entry as
absent), `default_platform` is `get_platform()`, `construct` abstracts
`importlib.import_module` + `getattr` + `client_class(**kwargs)`, and
`fallback_import_ok` whether `from api.ollama_api import
AsyncOllamaChatClient` succeeds. Exceptions propagate as `.error`;
when no config resolves, the fallback import is *not* guarded by a
`try`, so its failure propagates as an `ImportError`. -/
def create_ai_client (cfg : String → Option Desc) (default_platform platform : String)
    (construct : Desc → Except PyExc Client) (fallback_import_ok : Bool) :
    Except PyExc Client :=
  match (cfg platform).orElse (fun _ => cfg default_platform) with
  | none =>
    if fallback_import_ok then .ok .ollamaFallback else .error .importError
  | some config =>
    match construct config with
    | .ok c => .ok c
    | .error e =>
      if caughtByFactory e then
        if fallback_import_ok then .ok .ollamaFallback else .error .runtimeError
      else
        .error e

/-! ## Derived notions used to state the chunker claims -/

/-- A character that is neither a sentence-terminal delimiter nor a
secondary delimiter (comma/semicolon/whitespace): the "content"
characters, which the chunker never invents and never drops. -/
def isContentChar (c : Char) : Bool := !(isSentenceEnd c || isSubDelim c)

/-- The content characters of a string, in order. -/
def contentOf (s : Str) : Str := s.filter isContentChar

/-- Spec-worded reading (for the concatenation claim): the chunks
concatenated with the inserted terminal punctuation `'。'` stripped. -/
def stripInsertedTerminal (chunks : List Str) : Str :=
  chunks.flatten.filter (fun c => c ≠ '。')

/-- Spec-worded reading (for the concatenation claim): "the input after
the chunker's splitting/trimming normalization", i.e. the cleaned
sentence fragments concatenated in order. -/
def cleanedInput (text : Str) : Str := (sentencesOf text).flatten

/-! ## C1: chunker byte-limit contract -/

/-- C1 (code bug). The chunker's documented contract — every returned
chunk has UTF-8 byte length at most `byte_limit` — fails at
`text = "ab"`, `byte_limit = 2`: the code appends a terminal `'。'`
(3 UTF-8 bytes) to a chunk already at the byte limit, returning
`["ab。"]`, a single chunk of UTF-8 byte length 5 > 2. -/
theorem truncate_exceeds_limit_at_failing_input :
    truncate_by_sentences (toChars "ab") 2 = [toChars "ab。"] ∧
    byteLen (toChars "ab。") = 5 :=
  ⟨by decide, by decide⟩

/-! ## C5: broadcast classification -/

/-- C5 counterexample. When the node's own id is itself one of the
hardcoded broadcast sentinels, a destination equal to the node's own id
is still classified as broadcast, contradicting the claim that a
destination equal to this node's own id is classified as direct. -/
theorem is_broadcast_self_sentinel_counterexample :
    is_broadcast_message "4294967295" "4294967295" = true := by decide

/-- C5 (amended). Broadcast classification is a deterministic function of
`(to_id, node_id)`; a sentinel destination (or `"0"`) is broadcast; a
destination different from the node's own id is broadcast; a destination
equal to the node's own id is direct provided it is not itself a
sentinel and not `"0"`. -/
theorem is_broadcast_classification (node_id to_id node_id' to_id' : String) :
    (node_id = node_id' → to_id = to_id' →
      is_broadcast_message node_id to_id = is_broadcast_message node_id' to_id') ∧
    (to_id ∈ broadcast_addresses ∨ to_id = "0" →
      is_broadcast_message node_id to_id = true) ∧
    (to_id ≠ node_id → is_broadcast_message node_id to_id = true) ∧
    (to_id = node_id → to_id ∉ broadcast_addresses → to_id ≠ "0" →
      is_broadcast_message node_id to_id = false) := by
  refine ⟨fun h1 h2 => by rw [h1, h2], fun h => ?_, fun h => ?_, fun h1 h2 h3 => ?_⟩
  · unfold is_broadcast_message
    rcases h with h | h
    · rw [if_pos (Or.inl h)]
    · rw [if_pos (Or.inr (Or.inl h))]
  · simp [is_broadcast_message, h]
  · have hne : ¬ (to_id ∈ broadcast_addresses ∨ to_id = "0" ∨ to_id = "65535") := by
      rintro (h | h | h)
      · exact h2 h
      · exact h3 h
      · exact h2 (by rw [h]; decide)
    unfold is_broadcast_message
    rw [if_neg hne, if_neg (fun hn => hn h1)]

/-- Witness for the amended C5 theorem at concrete inputs. -/
theorem is_broadcast_classification_witness :
    is_broadcast_message "1" "4294967295" = true ∧
    is_broadcast_message "1" "2" = true ∧
    is_broadcast_message "1" "1" = false :=
  ⟨(is_broadcast_classification "1" "4294967295" "1" "4294967295").2.1 (Or.inl (by decide)),
   (is_broadcast_classification "1" "2" "1" "2").2.2.1 (by decide),
   (is_broadcast_classification "1" "1" "1" "1").2.2.2 rfl (by decide) (by decide)⟩

/-! ## C6: mention detection case-insensitivity -/

/-- C6 counterexample. Matching against the configurable keyword list is
case-sensitive: with the default keyword list, `"@all"` is detected as a
mention but its case variant `"@ALL"` is not, although the two texts
agree after lowering. -/
theorem contains_mention_case_counterexample :
    lowerStr (toChars "@ALL") = lowerStr (toChars "@all") ∧
    contains_mention default_broadcast_keywords (toChars "@all") [] = true ∧
    contains_mention default_broadcast_keywords (toChars "@ALL") [] = false :=
  ⟨by decide, by decide, by decide⟩

/-- C6 (amended). Mention detection is case-insensitive on the fixed
bot-mention tokens (texts agreeing after lowering classify alike whenever
the keyword list is empty, and, in general, whenever the case-sensitive
keyword matches agree), and the mention result is independent of the
addressing mode: it does not depend on `to_id` at all. -/
theorem contains_mention_amended (kws : List Str) (node_id to_id to_id' : String)
    (text text' sender : Str) :
    (lowerStr text = lowerStr text' →
      contains_mention [] text sender = contains_mention [] text' sender) ∧
    (lowerStr text = lowerStr text' →
      kws.any (fun k => containsSub k text) = kws.any (fun k => containsSub k text') →
      contains_mention kws text sender = contains_mention kws text' sender) ∧
    (classify_text_message kws node_id to_id text sender).2
      = (classify_text_message kws node_id to_id' text sender).2 := by
  refine ⟨fun h => ?_, fun h hk => ?_, rfl⟩
  · unfold contains_mention
    simp [h]
  · unfold contains_mention
    simp only [h, hk]

/-- Witness for the amended C6 theorem at concrete inputs. -/
theorem contains_mention_amended_witness :
    contains_mention [] (toChars "@BOT hi") [] = contains_mention [] (toChars "@bot hi") [] ∧
    (classify_text_message default_broadcast_keywords "1" "2" (toChars "hi") []).2
      = (classify_text_message default_broadcast_keywords "1" "3" (toChars "hi") []).2 :=
  ⟨(contains_mention_amended [] "1" "2" "2" (toChars "@BOT hi") (toChars "@bot hi") []).1
     (by decide),
   (contains_mention_amended default_broadcast_keywords "1" "2" "3"
     (toChars "hi") (toChars "hi") []).2.2⟩

/-! ## C3: pending-response correlation -/

/-- Updating a present key makes its entry the stored one. -/
theorem lookupP_setP_self (m : PendingMap) (k : String) (e : PendingEntry)
    (h : (lookupP m k).isSome) : lookupP (setP m k e) k = some e := by
  induction m with
  | nil => simp [lookupP] at h
  | cons p rest ih =>
    obtain ⟨k0, e0⟩ := p
    by_cases hk : k0 = k
    · simp [setP, lookupP, hk]
    · simp only [setP, lookupP, hk, if_false, if_neg hk] at h ⊢
      exact ih h

/-- Updating one key leaves every other key's entry unchanged. -/
theorem lookupP_setP_ne (m : PendingMap) (k k' : String) (e : PendingEntry)
    (h : k' ≠ k) : lookupP (setP m k e) k' = lookupP m k' := by
  induction m with
  | nil => rfl
  | cons p rest ih =>
    obtain ⟨k0, e0⟩ := p
    by_cases h0 : k0 = k
    · subst h0
      have h1 : ¬ k0 = k' := fun hh => h (hh ▸ rfl)
      simp [setP, lookupP, h1]
    · by_cases h1 : k0 = k'
      · simp [setP, lookupP, h0, h1, h]
      · simp [setP, lookupP, h0, h1, ih]

/-- A matched frame takes the correlation branch of `_handle_message`. -/
theorem handle_message_matched (m : PendingMap) (r : String) (p : Option Str)
    (hr : r ≠ "") (hs : (lookupP m r).isSome) :
    handle_message m (WsData.obj (some r) p)
      = (setP m r ⟨true, some (WsData.obj (some r) p)⟩, false) := by
  simp only [handle_message]
  rw [if_pos ⟨hr, hs⟩]

/-- C3 (confirmed). A decoded frame whose `request_id` matches a pending
entry stores the frame into exactly that entry's slot and fires exactly
that entry's event, leaves every other pending entry untouched, and is
not dispatched to the generic handlers; two frames with distinct request
identifiers each fulfil their own pending entry, never the other one,
while both requests are outstanding. -/
theorem handle_message_correlation (m : PendingMap) (r : String) (e : PendingEntry)
    (p : Option Str) (hr : r ≠ "") (he : lookupP m r = some e) :
    lookupP (handle_message m (WsData.obj (some r) p)).1 r
        = some ⟨true, some (WsData.obj (some r) p)⟩ ∧
    (∀ k, k ≠ r → lookupP (handle_message m (WsData.obj (some r) p)).1 k = lookupP m k) ∧
    (handle_message m (WsData.obj (some r) p)).2 = false ∧
    (∀ r2 e2 p2, r2 ≠ r → r2 ≠ "" → lookupP m r2 = some e2 →
      lookupP (handle_message (handle_message m (WsData.obj (some r) p)).1
          (WsData.obj (some r2) p2)).1 r
          = some ⟨true, some (WsData.obj (some r) p)⟩ ∧
      lookupP (handle_message (handle_message m (WsData.obj (some r) p)).1
          (WsData.obj (some r2) p2)).1 r2
          = some ⟨true, some (WsData.obj (some r2) p2)⟩) := by
  have hs : (lookupP m r).isSome := by rw [he]; rfl
  have heq := handle_message_matched m r p hr hs
  refine ⟨?_, ?_, ?_, ?_⟩
  · rw [heq]
    exact lookupP_setP_self m r _ hs
  · intro k hk
    rw [heq]
    exact lookupP_setP_ne m r k _ hk
  · rw [heq]
  · intro r2 e2 p2 h21 h2e h2l
    have hm1r2 : lookupP (handle_message m (WsData.obj (some r) p)).1 r2 = some e2 := by
      rw [heq]
      rw [lookupP_setP_ne m r r2 _ h21, h2l]
    have hs2 : (lookupP (handle_message m (WsData.obj (some r) p)).1 r2).isSome := by
      rw [hm1r2]; rfl
    have heq2 := handle_message_matched (handle_message m (WsData.obj (some r) p)).1
      r2 p2 h2e hs2
    constructor
    · rw [heq2]
      rw [lookupP_setP_ne _ r2 r _ (fun hh => h21 hh.symm)]
      rw [heq]
      exact lookupP_setP_self m r _ hs
    · rw [heq2]
      exact lookupP_setP_self _ r2 _ hs2

/-- Witness for the C3 theorem on a two-entry pending map. -/
theorem handle_message_correlation_witness :
    lookupP (handle_message [("a", ⟨false, none⟩), ("b", ⟨false, none⟩)]
        (WsData.obj (some "a") none)).1 "a"
      = some ⟨true, some (WsData.obj (some "a") none)⟩ ∧
    lookupP (handle_message [("a", ⟨false, none⟩), ("b", ⟨false, none⟩)]
        (WsData.obj (some "a") none)).1 "b" = some ⟨false, none⟩ ∧
    (handle_message [("a", ⟨false, none⟩), ("b", ⟨false, none⟩)]
        (WsData.obj (some "a") none)).2 = false := by
  have h := handle_message_correlation [("a", ⟨false, none⟩), ("b", ⟨false, none⟩)]
    "a" ⟨false, none⟩ none (by decide) (by decide)
  exact ⟨h.1, by rw [h.2.1 "b" (by decide)]; decide, h.2.2.1⟩

/-! ## C4: reconnection backoff -/

/-- The delays emitted by `_connect_with_retry` starting from attempt
counter `a` form the schedule `backoffDelay` at attempts `a+1, a+2, …`,
of some length bounded by `maxA - a`. -/
theorem connect_retry_delays (outcomes : Nat → Bool) (maxA base cap : Nat) :
    ∀ fuel a, ∃ n, n ≤ maxA - a ∧
      (connect_with_retry fuel outcomes a maxA base cap).2
        = (List.range n).map (fun i => backoffDelay base cap (a + 1 + i)) := by
  intro fuel
  induction fuel with
  | zero => exact fun a => ⟨0, Nat.zero_le _, rfl⟩
  | succ fuel ih =>
    intro a
    by_cases hout : outcomes a = true
    · exact ⟨0, Nat.zero_le _, by simp [connect_with_retry, hout]⟩
    · rw [Bool.not_eq_true] at hout
      by_cases hmax : a + 1 > maxA
      · exact ⟨0, Nat.zero_le _, by simp [connect_with_retry, hout, hmax]⟩
      · obtain ⟨n, hn, hdel⟩ := ih (a + 1)
        refine ⟨n + 1, by omega, ?_⟩
        simp only [connect_with_retry, hout, Bool.false_eq_true, if_false, hmax, hdel,
          List.range_succ_eq_map, List.map_cons, List.map_map]
        refine List.cons_eq_cons.mpr ⟨rfl, ?_⟩
        exact List.map_congr_left
          (fun i _ => by rw [Function.comp_apply]; congr 1; omega)

/-- If every connection attempt fails, `_connect_with_retry` reports
failure after sleeping exactly `maxA - a` more delays. -/
theorem connect_retry_all_fail (outcomes : Nat → Bool) (maxA base cap : Nat)
    (hf : ∀ k, outcomes k = false) :
    ∀ fuel a, a + fuel = maxA + 1 →
      (connect_with_retry fuel outcomes a maxA base cap).1 = false ∧
      (connect_with_retry fuel outcomes a maxA base cap).2.length = maxA - a := by
  intro fuel
  induction fuel with
  | zero =>
    intro a ha
    refine ⟨rfl, ?_⟩
    simp only [connect_with_retry, List.length_nil]
    omega
  | succ fuel ih =>
    intro a ha
    by_cases hmax : a + 1 > maxA
    · constructor
      · simp [connect_with_retry, hf a, hmax]
      · simp only [connect_with_retry, hf a, Bool.false_eq_true, if_false, if_pos hmax,
          List.length_nil]
        omega
    · obtain ⟨ih1, ih2⟩ := ih (a + 1) (by omega)
      constructor
      · simp [connect_with_retry, hf a, hmax, ih1]
      · simp only [connect_with_retry, hf a, Bool.false_eq_true, if_false, if_neg hmax,
          List.length_cons, ih2]
        omega

/-- The back-off schedule is monotone in the attempt number. -/
theorem backoffDelay_mono (base cap : Nat) {k k' : Nat} (h : k ≤ k') :
    backoffDelay base cap k ≤ backoffDelay base cap k' := by
  unfold backoffDelay
  exact min_le_min
    (Nat.mul_le_mul (le_refl base) (Nat.pow_le_pow_right (by omega) (by omega)))
    (le_refl cap)

/-- C4 (confirmed). Starting from a zero attempt counter, the delay
before reconnection attempt `k = i + 1` equals
`min(base_delay * 2^(k-1), max_delay)`; the delays are monotonically
non-decreasing and capped by `max_delay`; at most `maxA` delays are
slept; and when every attempt fails, the loop stops after exactly `maxA`
delays and reports failure. -/
theorem reconnect_backoff (base cap maxA : Nat) (outcomes : Nat → Bool) :
    (∀ i (h : i < (connect_with_retry (maxA + 1) outcomes 0 maxA base cap).2.length),
      (connect_with_retry (maxA + 1) outcomes 0 maxA base cap).2.get ⟨i, h⟩
        = backoffDelay base cap (i + 1)) ∧
    (∀ i j (hi : i < (connect_with_retry (maxA + 1) outcomes 0 maxA base cap).2.length)
        (hj : j < (connect_with_retry (maxA + 1) outcomes 0 maxA base cap).2.length),
      i ≤ j →
      (connect_with_retry (maxA + 1) outcomes 0 maxA base cap).2.get ⟨i, hi⟩
        ≤ (connect_with_retry (maxA + 1) outcomes 0 maxA base cap).2.get ⟨j, hj⟩) ∧
    (∀ i (h : i < (connect_with_retry (maxA + 1) outcomes 0 maxA base cap).2.length),
      (connect_with_retry (maxA + 1) outcomes 0 maxA base cap).2.get ⟨i, h⟩ ≤ cap) ∧
    (connect_with_retry (maxA + 1) outcomes 0 maxA base cap).2.length ≤ maxA ∧
    ((∀ k, outcomes k = false) →
      (connect_with_retry (maxA + 1) outcomes 0 maxA base cap).1 = false ∧
      (connect_with_retry (maxA + 1) outcomes 0 maxA base cap).2.length = maxA) := by
  obtain ⟨n, hn, hdel⟩ := connect_retry_delays outcomes maxA base cap (maxA + 1) 0
  have hget : ∀ i (h : i < (connect_with_retry (maxA + 1) outcomes 0 maxA base cap).2.length),
      (connect_with_retry (maxA + 1) outcomes 0 maxA base cap).2.get ⟨i, h⟩
        = backoffDelay base cap (i + 1) := by
    intro i h
    have hi : i < n := by
      have := h
      rw [hdel, List.length_map, List.length_range] at this
      exact this
    simp only [hdel, List.get_eq_getElem, List.getElem_map, List.getElem_range]
    congr 1
    omega
  refine ⟨hget, ?_, ?_, ?_, ?_⟩
  · intro i j hi hj hij
    rw [hget i hi, hget j hj]
    exact backoffDelay_mono base cap (by omega)
  · intro i h
    rw [hget i h]
    exact min_le_right _ _
  · rw [hdel, List.length_map, List.length_range]
    omega
  · intro hf
    have h := connect_retry_all_fail outcomes maxA base cap hf (maxA + 1) 0 (by omega)
    exact ⟨h.1, by rw [h.2]; omega⟩

/-- Witness for the C4 theorem at the source's configured values
(`reconnect_delay = 1`, `max_reconnect_delay = 30`,
`max_reconnect_attempts = 5`) with every attempt failing. -/
theorem reconnect_backoff_witness :
    (connect_with_retry 6 (fun _ => false) 0 5 1 30).1 = false ∧
    (connect_with_retry 6 (fun _ => false) 0 5 1 30).2.length = 5 ∧
    (connect_with_retry 6 (fun _ => false) 0 5 1 30).2.get ⟨0, by decide⟩
      = backoffDelay 1 30 1 := by
  have h := reconnect_backoff 1 30 5 (fun _ => false)
  have hfail := h.2.2.2.2 (fun k => rfl)
  exact ⟨hfail.1, hfail.2, h.1 0 (by decide)⟩

/-! ## C8: backend resolution and fallback -/

/-- C8 counterexample. A construction failure from malformed constructor
arguments (`TypeError` from `client_class(**kwargs)`) is not in the
caught exception tuple `(ImportError, AttributeError, KeyError)`: it
propagates instead of triggering the Ollama fallback, even though the
fallback is constructible. -/
theorem create_ai_client_typeerror_counterexample :
    create_ai_client (fun _ => some ⟨"m", "C"⟩) "ollama" "p"
        (fun _ => Except.error PyExc.typeError) true
      = Except.error PyExc.typeError := rfl

/-- C8 (amended). Resolution uses the exact platform entry, else the
default platform's entry; with no entry, the Ollama fallback is returned
when its import succeeds (else the import error aborts startup); a caught
construction failure (`ImportError`/`AttributeError`/`KeyError`) falls
back to Ollama, with `RuntimeError` aborting startup when even the
fallback import fails; any other construction failure (e.g. `TypeError`
from malformed arguments) propagates uncaught. -/
theorem create_ai_client_resolution (cfg : String → Option Desc) (dp p : String)
    (construct : Desc → Except PyExc Client) (fb : Bool) (d : Desc) (e : PyExc)
    (c : Client) :
    (cfg p = some d → construct d = Except.ok c →
      create_ai_client cfg dp p construct fb = Except.ok c) ∧
    (cfg p = none → cfg dp = some d → construct d = Except.ok c →
      create_ai_client cfg dp p construct fb = Except.ok c) ∧
    (cfg p = none → cfg dp = none →
      create_ai_client cfg dp p construct fb
        = if fb then Except.ok Client.ollamaFallback else Except.error PyExc.importError) ∧
    (cfg p = some d → construct d = Except.error e → caughtByFactory e = true →
      create_ai_client cfg dp p construct fb
        = if fb then Except.ok Client.ollamaFallback else Except.error PyExc.runtimeError) ∧
    (cfg p = some d → construct d = Except.error e → caughtByFactory e = false →
      create_ai_client cfg dp p construct fb = Except.error e) := by
  refine ⟨fun h1 h2 => ?_, fun h1 h2 h3 => ?_, fun h1 h2 => ?_,
    fun h1 h2 h3 => ?_, fun h1 h2 h3 => ?_⟩
  · simp [create_ai_client, h1, h2, Option.orElse]
  · simp [create_ai_client, h1, h2, h3, Option.orElse]
  · simp [create_ai_client, h1, h2, Option.orElse]
  · simp [create_ai_client, h1, h2, h3, Option.orElse]
  · simp [create_ai_client, h1, h2, h3, Option.orElse]

/-- Witness for the amended C8 theorem at concrete inputs. -/
theorem create_ai_client_resolution_witness :
    create_ai_client (fun _ => some ⟨"m", "C"⟩) "ollama" "p"
        (fun d => Except.ok (Client.custom d)) true
      = Except.ok (Client.custom ⟨"m", "C"⟩) ∧
    create_ai_client (fun _ => none) "ollama" "p"
        (fun d => Except.ok (Client.custom d)) true
      = Except.ok Client.ollamaFallback ∧
    create_ai_client (fun _ => some ⟨"m", "C"⟩) "ollama" "p"
        (fun _ => Except.error PyExc.keyError) true
      = Except.ok Client.ollamaFallback :=
  ⟨(create_ai_client_resolution (fun _ => some ⟨"m", "C"⟩) "ollama" "p"
      (fun d => Except.ok (Client.custom d)) true ⟨"m", "C"⟩ PyExc.keyError
      (Client.custom ⟨"m", "C"⟩)).1 rfl rfl,
   (create_ai_client_resolution (fun _ => none) "ollama" "p"
      (fun d => Except.ok (Client.custom d)) true ⟨"m", "C"⟩ PyExc.keyError
      Client.ollamaFallback).2.2.1 rfl rfl,
   (create_ai_client_resolution (fun _ => some ⟨"m", "C"⟩) "ollama" "p"
      (fun _ => Except.error PyExc.keyError) true ⟨"m", "C"⟩ PyExc.keyError
      Client.ollamaFallback).2.2.2.1 rfl rfl rfl⟩

/-! ## C9: conversation-history invariant -/

/-- Ollama `chat` leaves the conversation history unchanged whenever it
reports failure. -/
theorem ollama_chat_fail_history (h : List RoleMsg) (un msg : Str) (oc : HttpOutcome)
    (hf : (ollama_chat h un msg oc).result.success = false) :
    (ollama_chat h un msg oc).history = h := by
  by_cases hg : (msg.isEmpty || (pyStrip msg).isEmpty) = true
  · simp [ollama_chat, hg]
  · rw [Bool.not_eq_true] at hg
    cases oc <;> simp_all [ollama_chat, hg]

/-- C9 (confirmed). Each history update appends the user message then the
assistant response and keeps only the newest 20 entries (FIFO), so the
length bound 20 holds after every update; the backend mutates the history
only on a successful exchange — a failed `chat` leaves it unchanged, and
a successful one applies exactly this update with the composed
`"{user_name}:{message}"` user entry. -/
theorem conversation_history_invariant (h : List RoleMsg) (u a un msg : Str)
    (oc : HttpOutcome) :
    (update_conversation_history h u a).length ≤ 20 ∧
    update_conversation_history h u a
      = (h ++ [RoleMsg.mk "user" u, RoleMsg.mk "assistant" a]).drop ((h.length + 2) - 20) ∧
    ((ollama_chat h un msg oc).result.success = false →
      (ollama_chat h un msg oc).history = h) ∧
    (∀ content, oc = HttpOutcome.ok content →
      (ollama_chat h un msg oc).result.success = true →
      (ollama_chat h un msg oc).history
        = update_conversation_history h (un ++ ':' :: msg) content) := by
  refine ⟨?_, ?_, fun hf => ollama_chat_fail_history h un msg oc hf, ?_⟩
  · simp only [update_conversation_history]
    split
    · rw [List.length_drop]
      omega
    · rename_i hc
      omega
  · simp only [update_conversation_history]
    split
    · simp [List.length_append]
    · rename_i hc
      rw [List.length_append] at hc
      have h0 : h.length + 2 - 20 = 0 := by simp at hc; omega
      rw [h0, List.drop_zero]
  · intro content hoc hs
    subst hoc
    by_cases hg : (msg.isEmpty || (pyStrip msg).isEmpty) = true
    · simp [ollama_chat, hg] at hs
    · rw [Bool.not_eq_true] at hg
      simp [ollama_chat, hg]

/-- Witness for the C9 theorem at concrete inputs. -/
theorem conversation_history_invariant_witness :
    (update_conversation_history [] (toChars "u") (toChars "r")).length ≤ 20 ∧
    (ollama_chat [] (toChars "n") (toChars "m") (HttpOutcome.netError [])).history = [] ∧
    (ollama_chat [] (toChars "n") (toChars "m") (HttpOutcome.ok (toChars "ok"))).history
      = update_conversation_history [] (toChars "n" ++ ':' :: toChars "m") (toChars "ok") := by
  have h1 := conversation_history_invariant [] (toChars "u") (toChars "r")
    (toChars "n") (toChars "m") (HttpOutcome.netError [])
  have h2 := conversation_history_invariant [] (toChars "u") (toChars "r")
    (toChars "n") (toChars "m") (HttpOutcome.ok (toChars "ok"))
  exact ⟨h1.1, h1.2.2.1 (by decide), h2.2.2.2 (toChars "ok") rfl (by decide)⟩

/-! ## C10: empty-message guard -/

/-- C10 (confirmed). For any sender and an empty or whitespace-only
message, both backends' `chat` fail fast with a non-empty error and no
response, performing no network operation and leaving the conversation
history respectively the pending-response map unchanged. -/
theorem empty_message_guard (hist : List RoleMsg) (user_name message : Str)
    (oc : HttpOutcome) (pending : PendingMap) (connected : Bool)
    (request_id : String) (send_ok : Bool) (response : Option WsData)
    (hempty : pyStrip message = []) :
    (ollama_chat hist user_name message oc).result.success = false ∧
    (ollama_chat hist user_name message oc).result.error
      = some (toChars "消息内容为空") ∧
    toChars "消息内容为空" ≠ [] ∧
    (ollama_chat hist user_name message oc).result.response = none ∧
    (ollama_chat hist user_name message oc).history = hist ∧
    (ollama_chat hist user_name message oc).httpRequests = 0 ∧
    (ws_chat pending user_name message connected request_id send_ok response).result.success
      = false ∧
    (ws_chat pending user_name message connected request_id send_ok response).result.error
      = some (toChars "用户名或消息内容为空") ∧
    toChars "用户名或消息内容为空" ≠ [] ∧
    (ws_chat pending user_name message connected request_id send_ok response).result.response
      = none ∧
    (ws_chat pending user_name message connected request_id send_ok response).pending
      = pending ∧
    (ws_chat pending user_name message connected request_id send_ok response).framesSent
      = 0 := by
  have hg : (pyStrip message).isEmpty = true := by rw [hempty]; rfl
  have ho : (message.isEmpty || (pyStrip message).isEmpty) = true := by simp [hg]
  have hw : (user_name.isEmpty || message.isEmpty || (pyStrip message).isEmpty) = true := by
    simp [hg]
  have hoeq : ollama_chat hist user_name message oc
      = ⟨⟨false, none, some (toChars "消息内容为空")⟩, hist, 0⟩ := by
    unfold ollama_chat
    rw [if_pos ho]
  have hweq : ws_chat pending user_name message connected request_id send_ok response
      = ⟨⟨false, none, some (toChars "用户名或消息内容为空")⟩, pending, 0⟩ := by
    unfold ws_chat
    rw [if_pos hw]
  rw [hoeq, hweq]
  exact ⟨rfl, rfl, by decide, rfl, rfl, rfl, rfl, rfl, by decide, rfl, rfl, rfl⟩

/-- Witness for the C10 theorem at a whitespace-only message. -/
theorem empty_message_guard_witness :
    (ollama_chat [] (toChars "alice") (toChars " ") (HttpOutcome.ok (toChars "x"))).result.success
      = false ∧
    (ollama_chat [] (toChars "alice") (toChars " ") (HttpOutcome.ok (toChars "x"))).httpRequests
      = 0 ∧
    (ws_chat [] (toChars "alice") (toChars " ") true "id" true none).pending = [] := by
  have h := empty_message_guard [] (toChars "alice") (toChars " ")
    (HttpOutcome.ok (toChars "x")) [] true "id" true none (by decide)
  exact ⟨h.1, h.2.2.2.2.2.1, h.2.2.2.2.2.2.2.2.2.2.1⟩

/-! ## C7: error notice on backend failure -/

/-- Every list is a prefix of itself. -/
theorem isPrefixOf_self (l : Str) : l.isPrefixOf l = true := by
  induction l with
  | nil => rfl
  | cons c rest ih => simp [List.isPrefixOf, ih]

/-- Every string contains itself as a substring. -/
theorem containsSub_self (l : Str) : containsSub l l = true := by
  cases l with
  | nil => rfl
  | cons c rest => simp [containsSub, isPrefixOf_self]

/-- A string contains every string it ends with. -/
theorem containsSub_append_self (e p : Str) : containsSub e (p ++ e) = true := by
  induction p with
  | nil => simpa using containsSub_self e
  | cons c p ih => simp [containsSub, ih]

/-- C7 (confirmed). When a message reaches processing (is not skipped by
the broadcast-reply policy) and the backend's `chat` fails with error
`e`, the relay issues exactly one `sendText`, whose text contains `e`,
over the same channel the request arrived on (broadcast send for
broadcast, direct send to the sender otherwise), with no retry and with
the backend's conversation history unchanged. -/
theorem error_notice_single_send (broadcast_enabled : Bool) (maxLen : Nat)
    (from_id : String) (text long_name : Str) (is_broadcast is_mention : Bool)
    (history : List RoleMsg) (oc : HttpOutcome) (e : Str)
    (hproc : is_broadcast = true →
      should_respond_to_broadcast broadcast_enabled text is_mention = true)
    (hfail : (ollama_chat history long_name text oc).result.success = false)
    (herr : (ollama_chat history long_name text oc).result.error = some e) :
    handle_incoming_message broadcast_enabled maxLen from_id text long_name
        is_broadcast is_mention history oc
      = ⟨[⟨toChars "❌ 处理失败: " ++ e,
           if is_broadcast then none else some from_id⟩], history, true⟩ ∧
    containsSub e (toChars "❌ 处理失败: " ++ e) = true := by
  have hgate :
      (is_broadcast && !should_respond_to_broadcast broadcast_enabled text is_mention)
        = false := by
    cases hb : is_broadcast
    · rfl
    · simp [hproc hb]
  refine ⟨?_, containsSub_append_self e (toChars "❌ 处理失败: ")⟩
  unfold handle_incoming_message
  rw [hgate]
  simp only [Bool.false_eq_true, if_false, hfail, herr, Option.getD_some,
    ollama_chat_fail_history history long_name text oc hfail]

/-- Witness for the C7 theorem: a direct message whose backend call fails
with a network error yields exactly one direct error notice. -/
theorem error_notice_single_send_witness :
    handle_incoming_message true 200 "42" (toChars "hi") (toChars "n") false false []
        (HttpOutcome.netError (toChars "timeout"))
      = ⟨[⟨toChars "❌ 处理失败: " ++ (toChars "网络错误: " ++ toChars "timeout"),
           some "42"⟩], [], true⟩ ∧
    containsSub (toChars "网络错误: " ++ toChars "timeout")
      (toChars "❌ 处理失败: " ++ (toChars "网络错误: " ++ toChars "timeout")) = true := by
  have h := error_notice_single_send true 200 "42" (toChars "hi") (toChars "n") false false
    [] (HttpOutcome.netError (toChars "timeout"))
    (toChars "网络错误: " ++ toChars "timeout")
    (fun hb => nomatch hb) (by decide) (by decide)
  exact h

/-! ## C2: chunk concatenation and content preservation -/

/-- C2 counterexample. For `text = "aa  ,  bb"` and `byte_limit = 7` the
chunker returns `["aa，bb。"]`: the secondary delimiters (spaces and the
ASCII comma) were dropped and replaced by an inserted full-width `'，'`,
so the concatenation with the inserted terminal punctuation stripped is
`"aa，bb"`, which is neither the cleaned input `"aa  ,  bb"` nor even its
delimiter-free content `"aabb"`. -/
theorem truncate_concat_counterexample :
    truncate_by_sentences (toChars "aa  ,  bb") 7 = [toChars "aa，bb。"] ∧
    stripInsertedTerminal (truncate_by_sentences (toChars "aa  ,  bb") 7)
      ≠ cleanedInput (toChars "aa  ,  bb") ∧
    stripInsertedTerminal (truncate_by_sentences (toChars "aa  ,  bb") 7)
      ≠ contentOf (toChars "aa  ,  bb") :=
  ⟨by decide, by decide, by decide⟩

/-- A delimiter of either class is not a content character. -/
theorem isContentChar_eq_false_of_subDelim (c : Char) (h : isSubDelim c = true) :
    isContentChar c = false := by
  simp [isContentChar, h]

/-- Whitespace is not content (it is a secondary delimiter). -/
theorem isContentChar_eq_false_of_space (c : Char) (h : isPySpace c = true) :
    isContentChar c = false := by
  apply isContentChar_eq_false_of_subDelim
  simp [isSubDelim, h]

/-- Sentence-terminal punctuation is not content. -/
theorem isContentChar_eq_false_of_sentenceEnd (c : Char) (h : isSentenceEnd c = true) :
    isContentChar c = false := by
  simp [isContentChar, h]

theorem isContentChar_period : isContentChar '。' = false := by decide

theorem isContentChar_comma : isContentChar '，' = false := by decide

theorem contentOf_nil : contentOf [] = [] := rfl

theorem contentOf_append (a b : Str) : contentOf (a ++ b) = contentOf a ++ contentOf b :=
  List.filter_append a b

theorem contentOf_cons (c : Char) (s : Str) :
    contentOf (c :: s) = (if isContentChar c then [c] else []) ++ contentOf s := by
  by_cases h : isContentChar c = true <;> simp [contentOf, List.filter_cons, h]

/-- Content is preserved under appending a shared suffix to strings of
equal content. -/
theorem contentOf_append_congr {a b : Str} (c : Str) (h : contentOf a = contentOf b) :
    contentOf (a ++ c) = contentOf (b ++ c) := by
  rw [contentOf_append, contentOf_append, h]

/-- Prepending a character to the first fragment flattens to a `cons`. -/
theorem flatten_consFrag (c : Char) (L : List Str) :
    (consFrag c L).flatten = c :: L.flatten := by
  cases L <;> simp [consFrag]

/-- Flattening the fragments of `splitOnPred` recovers exactly the
non-delimiter characters, in order. -/
theorem flatten_splitOnPred (p : Char → Bool) (s : Str) :
    (splitOnPred p s).flatten = s.filter (fun c => !(p c)) := by
  induction s with
  | nil => rfl
  | cons c rest ih =>
    by_cases hp : p c = true
    · simp [splitOnPred, hp, List.filter_cons, ih]
    · simp only [Bool.not_eq_true] at hp
      simp [splitOnPred, hp, List.filter_cons, flatten_consFrag, ih]

/-- Removing delimiter characters that are not content anyway does not
change the content. -/
theorem contentOf_filter_not (p : Char → Bool)
    (hp : ∀ c, p c = true → isContentChar c = false) (s : Str) :
    contentOf (s.filter (fun c => !(p c))) = contentOf s := by
  unfold contentOf
  rw [List.filter_filter]
  apply List.filter_congr
  intro c _
  cases hpc : p c
  · simp
  · simp [hp c hpc]

theorem contentOf_dropWhile_space (s : Str) :
    contentOf (s.dropWhile isPySpace) = contentOf s := by
  induction s with
  | nil => rfl
  | cons c rest ih =>
    by_cases h : isPySpace c = true
    · rw [List.dropWhile_cons_of_pos h, ih, contentOf_cons,
        isContentChar_eq_false_of_space c h]
      simp
    · rw [List.dropWhile_cons_of_neg h]

theorem contentOf_reverse (s : Str) : contentOf s.reverse = (contentOf s).reverse :=
  List.filter_reverse isContentChar s

/-- Python `strip` only removes whitespace, hence preserves content. -/
theorem contentOf_pyStrip (s : Str) : contentOf (pyStrip s) = contentOf s := by
  unfold pyStrip
  rw [contentOf_reverse, contentOf_dropWhile_space, contentOf_reverse,
    List.reverse_reverse, contentOf_dropWhile_space]

theorem contentOf_flatten (L : List Str) :
    contentOf L.flatten = (L.map contentOf).flatten :=
  List.filter_flatten isContentChar L

/-- Discarding empty fragments does not change the flattening. -/
theorem flatten_filter_nonempty (L : List Str) :
    (L.filter (fun s => !s.isEmpty)).flatten = L.flatten := by
  induction L with
  | nil => rfl
  | cons x L ih =>
    cases x with
    | nil => simpa [List.filter_cons] using ih
    | cons a as => simp [List.filter_cons, ih]

/-- The cleaned sentence fragments carry exactly the input's content. -/
theorem contentOf_flatten_sentencesOf (text : Str) :
    contentOf (sentencesOf text).flatten = contentOf text := by
  unfold sentencesOf
  rw [flatten_filter_nonempty, contentOf_flatten, List.map_map]
  have hmap : (splitOnPred isSentenceEnd (pyStrip text)).map (contentOf ∘ pyStrip)
      = (splitOnPred isSentenceEnd (pyStrip text)).map contentOf :=
    List.map_congr_left (fun s _ => by
      rw [Function.comp_apply, contentOf_pyStrip])
  rw [hmap, ← contentOf_flatten, flatten_splitOnPred,
    contentOf_filter_not isSentenceEnd isContentChar_eq_false_of_sentenceEnd,
    contentOf_pyStrip]

/-- The character-level fallback preserves content: the closed chunks plus
the carried `temp` hold exactly the content accumulated so far plus the
content of the processed characters. -/
theorem charFallback_content (limit : Nat) (sub : Str) :
    ∀ res temp,
      contentOf ((charFallback limit sub res temp).1.flatten
          ++ (charFallback limit sub res temp).2)
        = contentOf (res.flatten ++ (temp ++ sub)) := by
  induction sub with
  | nil =>
    intro res temp
    simp [charFallback]
  | cons ch rest ih =>
    intro res temp
    simp only [charFallback]
    split
    · rw [ih]
      simp [contentOf_append, contentOf_cons, List.append_assoc, List.singleton_append]
    · by_cases ht : temp = []
      · rw [if_pos ht, ih, ht]
        simp [contentOf_append, contentOf_cons, List.append_assoc, List.singleton_append]
      · rw [if_neg ht, ih]
        simp [contentOf_append, contentOf_cons, contentOf_nil, isContentChar_period,
          List.flatten_append, List.flatten_cons, List.append_assoc,
          List.singleton_append, List.append_nil]

/-- The oversized-sentence loop preserves content. -/
theorem processSubs_content (limit : Nat) (subs : List Str) :
    ∀ res cur,
      contentOf ((processSubs limit subs res cur).1.flatten
          ++ (processSubs limit subs res cur).2)
        = contentOf (res.flatten ++ (cur ++ subs.flatten)) := by
  induction subs with
  | nil =>
    intro res cur
    simp [processSubs, contentOf_append]
  | cons sub0 rest ih =>
    intro res cur
    have hsub0 : contentOf (pyStrip sub0) = contentOf sub0 := contentOf_pyStrip sub0
    simp only [processSubs]
    split
    · rename_i hs
      rw [ih]
      have hz : contentOf sub0 = [] := by rw [← hsub0, hs, contentOf_nil]
      simp [contentOf_append, hz, List.flatten_cons, List.append_assoc]
    · split
      · rw [ih]
        simp [contentOf_append, contentOf_cons, isContentChar_comma, hsub0,
          List.flatten_cons, List.append_assoc]
      · split
        · rename_i hcond
          rw [ih, hcond.1]
          simp [contentOf_append, hsub0, List.flatten_cons, List.append_assoc]
        · split
          · rw [ih, ← List.append_assoc,
              contentOf_append_congr rest.flatten
                (charFallback_content limit (pyStrip sub0)
                  (if cur = [] then res else res ++ [cur ++ ['。']]) [])]
            by_cases hc : cur = []
            · rw [if_pos hc, hc]
              simp [contentOf_append, hsub0, List.flatten_cons, List.append_assoc]
            · rw [if_neg hc]
              simp [contentOf_append, contentOf_cons, contentOf_nil, isContentChar_period,
                hsub0, List.flatten_append, List.flatten_cons, List.append_assoc,
                List.append_nil]
          · rw [ih]
            by_cases hc : cur = []
            · rw [if_pos hc, hc]
              simp [contentOf_append, hsub0, List.flatten_cons, List.append_assoc]
            · rw [if_neg hc]
              simp [contentOf_append, contentOf_cons, contentOf_nil, isContentChar_period,
                hsub0, List.flatten_append, List.flatten_cons, List.append_assoc,
                List.append_nil]

/-- The main sentence loop preserves content. -/
theorem processSentences_content (limit : Nat) (sents : List Str) :
    ∀ res cur,
      contentOf ((processSentences limit sents res cur).1.flatten
          ++ (processSentences limit sents res cur).2)
        = contentOf (res.flatten ++ (cur ++ sents.flatten)) := by
  induction sents with
  | nil =>
    intro res cur
    simp [processSentences, contentOf_append]
  | cons sentence rest ih =>
    intro res cur
    have hsent : contentOf (splitOnPred isSubDelim sentence).flatten
        = contentOf sentence := by
      rw [flatten_splitOnPred]
      exact contentOf_filter_not isSubDelim isContentChar_eq_false_of_subDelim sentence
    simp only [processSentences]
    split
    · rw [ih, ← List.append_assoc,
        contentOf_append_congr rest.flatten
          (processSubs_content limit (splitOnPred isSubDelim sentence)
            (if cur = [] then res else res ++ [cur]) [])]
      by_cases hc : cur = []
      · rw [if_pos hc, hc]
        simp only [contentOf_append, List.flatten_cons, List.append_assoc,
          List.nil_append]
        rw [hsent]
      · rw [if_neg hc]
        simp only [contentOf_append, List.flatten_append, List.flatten_cons,
          List.flatten_nil, List.append_assoc, List.nil_append, List.append_nil]
        rw [hsent]
    · split
      · rename_i hc
        split <;> rw [ih] <;>
          simp [hc, contentOf_append, List.flatten_cons, List.append_assoc]
      · split
        · rw [ih]
          simp [contentOf_append, contentOf_cons, isContentChar_period,
            List.flatten_cons, List.append_assoc]
        · rw [ih]
          simp [contentOf_append, contentOf_cons, contentOf_nil, isContentChar_period,
            List.flatten_append, List.flatten_cons, List.append_assoc, List.append_nil]

/-- C2 (amended). For every positive byte limit, concatenating the
chunker's output preserves exactly the content characters of the input
(characters that are neither sentence-terminal punctuation nor secondary
delimiters nor whitespace), in order and with no loss; the inserted
`'。'`/`'，'` separators and the dropped delimiters are the only
differences from the cleaned input. -/
theorem truncate_preserves_content (text : Str) (limit : Nat) (hl : 0 < limit) :
    contentOf (truncate_by_sentences text limit).flatten = contentOf text := by
  have hsf := contentOf_flatten_sentencesOf text
  unfold truncate_by_sentences
  by_cases htext : text = []
  · subst htext
    simp
  · rw [if_neg (fun h => h.elim htext (fun h0 => by omega))]
    by_cases hsents : sentencesOf text = []
    · rw [if_pos hsents]
      rw [hsents] at hsf
      exact hsf
    · rw [if_neg hsents]
      have hmain := processSentences_content limit (sentencesOf text) [] []
      simp only [List.flatten_nil, List.nil_append] at hmain
      rw [hsf] at hmain
      by_cases hps : (processSentences limit (sentencesOf text) [] []).2 = []
      · rw [if_pos hps]
        rw [hps, List.append_nil] at hmain
        exact hmain
      · rw [if_neg hps]
        by_cases hlast : (processSentences limit (sentencesOf text) [] []).2.getLast?
            = some '。'
        · rw [if_pos hlast, ← hmain]
          simp [contentOf_append, List.flatten_append, List.flatten_cons,
            List.flatten_nil, List.append_nil]
        · rw [if_neg hlast, ← hmain]
          simp [contentOf_append, contentOf_cons, contentOf_nil, isContentChar_period,
            List.flatten_append, List.flatten_cons, List.flatten_nil,
            List.append_assoc, List.append_nil]

/-- Witness for the amended C2 theorem at a concrete input. -/
theorem truncate_preserves_content_witness :
    contentOf (truncate_by_sentences (toChars "a") 1).flatten = contentOf (toChars "a") :=
  truncate_preserves_content (toChars "a") 1 (by decide)
